import Mathlib

/-!
Verification of the geometric analysis engine of the Larva Turning Angle
Analyzer (src/Larva_Analyzer.py) against its natural-language specification.

Modelling conventions:
* a 2-D point (a numpy float pair) is a pair of exact rationals;
* numpy argmin / argmax over Euclidean norms are modelled by argmin / argmax
  over squared distances, which is faithful because the square root is
  strictly monotone and first-occurrence tie-breaking only compares values;
* comparisons of a Euclidean norm against a constant are likewise modelled by
  comparing squared quantities, scaled so that every compared quantity is
  rational (each such rewriting is noted at the definition it concerns);
* sums of Euclidean distances (arc lengths, spacings) are modelled exactly in
  the real numbers via Real.sqrt;
* library calls that leave the repository (scipy spline fitting, the
  cv2 / skimage rasterize-and-skeletonize pipeline) are modelled as explicit
  inputs: a spline oracle returning the resampled points or none when the
  library call throws, and an optional list of skeleton points.
-/

namespace Larva

/-- A 2-D point in image pixel coordinates, with exact rational coordinates. -/
abbrev Pt := ℚ × ℚ

/-- Squared Euclidean distance between two points. -/
def sqDist (p q : Pt) : ℚ := (p.1 - q.1) * (p.1 - q.1) + (p.2 - q.2) * (p.2 - q.2)

/-- Componentwise difference of points. -/
def psub (p q : Pt) : Pt := (p.1 - q.1, p.2 - q.2)

/-- Componentwise sum of points. -/
def padd (p q : Pt) : Pt := (p.1 + q.1, p.2 + q.2)

/-- Scalar multiple of a point. -/
def smul (c : ℚ) (p : Pt) : Pt := (c * p.1, c * p.2)

/-- Dot product of two points viewed as vectors. -/
def dotP (p q : Pt) : ℚ := p.1 * q.1 + p.2 * q.2

/-- Index of the first occurrence of the minimum of `f` over a list
(the numpy `argmin` convention); `0` on the empty list. -/
def argminIdx {α : Type} (f : α → ℚ) : List α → ℕ
  | [] => 0
  | [_] => 0
  | a :: b :: rest =>
      let j := argminIdx f (b :: rest)
      if f a ≤ f ((b :: rest).getD j b) then 0 else j + 1

/-- Index of the first occurrence of the maximum of `f` over a list
(the numpy `argmax` convention), realised as an argmin of `-f`. -/
def argmaxIdx {α : Type} (f : α → ℚ) (l : List α) : ℕ :=
  argminIdx (fun a => -(f a)) l

theorem argminIdx_lt {α : Type} (f : α → ℚ) :
    ∀ l : List α, l ≠ [] → argminIdx f l < l.length
  | [], h => absurd rfl h
  | [_], _ => by simp [argminIdx]
  | a :: b :: rest, _ => by
      have ih := argminIdx_lt f (b :: rest) (by simp)
      simp only [argminIdx]
      split
      · simp
      · simpa using Nat.succ_lt_succ ih

theorem argminIdx_getD_mem {α : Type} (f : α → ℚ) (l : List α) (d : α)
    (h : l ≠ []) : l.getD (argminIdx f l) d ∈ l := by
  have hlt := argminIdx_lt f l h
  rw [List.getD_eq_getElem l d hlt]
  exact List.getElem_mem hlt

theorem argminIdx_le {α : Type} (f : α → ℚ) :
    ∀ (l : List α) (d : α), ∀ x ∈ l, f (l.getD (argminIdx f l) d) ≤ f x
  | [], _, x, hx => absurd hx (by simp)
  | [a], d, x, hx => by
      simp only [List.mem_singleton] at hx
      subst hx
      simp [argminIdx]
  | a :: b :: rest, d, x, hx => by
      have hlt : argminIdx f (b :: rest) < (b :: rest).length :=
        argminIdx_lt f (b :: rest) (by simp)
      have hdb : (b :: rest).getD (argminIdx f (b :: rest)) d
          = (b :: rest).getD (argminIdx f (b :: rest)) b := by
        rw [List.getD_eq_getElem _ d hlt, List.getD_eq_getElem _ b hlt]
      simp only [argminIdx]
      split
      · next hle =>
          rcases List.mem_cons.mp hx with rfl | hx'
          · simp
          · calc f ((a :: b :: rest).getD 0 d) = f a := by simp
              _ ≤ f ((b :: rest).getD (argminIdx f (b :: rest)) b) := hle
              _ ≤ f x := argminIdx_le f (b :: rest) b x hx'
      · next hgt =>
          push_neg at hgt
          have hstep : (a :: b :: rest).getD (argminIdx f (b :: rest) + 1) d
              = (b :: rest).getD (argminIdx f (b :: rest)) d := by
            simp [List.getD_cons_succ]
          rcases List.mem_cons.mp hx with rfl | hx'
          · rw [hstep, hdb]; exact le_of_lt hgt
          · rw [hstep, hdb]; exact argminIdx_le f (b :: rest) b x hx'

theorem argmaxIdx_getD_mem {α : Type} (f : α → ℚ) (l : List α) (d : α)
    (h : l ≠ []) : l.getD (argmaxIdx f l) d ∈ l :=
  argminIdx_getD_mem _ l d h

theorem argmaxIdx_ge {α : Type} (f : α → ℚ) (l : List α) (d : α) :
    ∀ x ∈ l, f x ≤ f (l.getD (argmaxIdx f l) d) := by
  intro x hx
  have := argminIdx_le (fun a => -(f a)) l d x hx
  simpa [argmaxIdx] using this

/-! ## Endpoint detection (source: `detect_endpoints`, lines 2045-2077)

The four extreme strategies of the method combo box.  The "Manual" branch of
the source returns the stored positions of the current frame and is entangled
with the interactive state; the claims under verification only concern the
four extreme strategies, so the strategy type carries exactly those. -/

inductive Strategy : Type
  | top
  | bottom
  | left
  | right
deriving DecidableEq, Repr

/-- Head and tail of a contour per detection strategy: the head takes the
arg-extremum of the axis named by the strategy, the tail the opposite
arg-extremum (source lines 2049-2077). -/
def detect_endpoints (strat : Strategy) (roi : List Pt) : Pt × Pt :=
  match strat with
  | .top    => (roi.getD (argminIdx Prod.snd roi) (0, 0),
                roi.getD (argmaxIdx Prod.snd roi) (0, 0))
  | .bottom => (roi.getD (argmaxIdx Prod.snd roi) (0, 0),
                roi.getD (argminIdx Prod.snd roi) (0, 0))
  | .left   => (roi.getD (argminIdx Prod.fst roi) (0, 0),
                roi.getD (argmaxIdx Prod.fst roi) (0, 0))
  | .right  => (roi.getD (argmaxIdx Prod.fst roi) (0, 0),
                roi.getD (argminIdx Prod.fst roi) (0, 0))

/-- The coordinate axis a strategy extremizes: Y for top / bottom, X for
left / right. -/
def axisCoord : Strategy → Pt → ℚ
  | .top, p => p.2
  | .bottom, p => p.2
  | .left, p => p.1
  | .right, p => p.1

/-- Whether the head is placed at the minimum of the axis (top, left) or at
the maximum (bottom, right). -/
def headAtMin : Strategy → Bool
  | .top => true
  | .bottom => false
  | .left => true
  | .right => false

/-- C5: for every contour (at least 3 points) and each of the four extreme
strategies, the detected head and tail are members of the contour, the head
attains the extremum of the chosen axis, and the tail attains the opposite
extremum of the same axis. -/
theorem larva_C5 (strat : Strategy) (roi : List Pt) (hroi : 3 ≤ roi.length) :
    (detect_endpoints strat roi).1 ∈ roi ∧ (detect_endpoints strat roi).2 ∈ roi ∧
    (if headAtMin strat then
      (∀ q ∈ roi, axisCoord strat (detect_endpoints strat roi).1 ≤ axisCoord strat q) ∧
      (∀ q ∈ roi, axisCoord strat q ≤ axisCoord strat (detect_endpoints strat roi).2)
    else
      (∀ q ∈ roi, axisCoord strat q ≤ axisCoord strat (detect_endpoints strat roi).1) ∧
      (∀ q ∈ roi, axisCoord strat (detect_endpoints strat roi).2 ≤ axisCoord strat q)) := by
  have hne : roi ≠ [] := by
    intro h
    rw [h] at hroi
    simp at hroi
  cases strat with
  | top =>
      refine ⟨argminIdx_getD_mem _ roi (0, 0) hne, argmaxIdx_getD_mem _ roi (0, 0) hne, ?_⟩
      simp only [headAtMin, if_true, detect_endpoints, axisCoord]
      exact ⟨fun q hq => argminIdx_le Prod.snd roi (0, 0) q hq,
             fun q hq => argmaxIdx_ge Prod.snd roi (0, 0) q hq⟩
  | bottom =>
      refine ⟨argmaxIdx_getD_mem _ roi (0, 0) hne, argminIdx_getD_mem _ roi (0, 0) hne, ?_⟩
      simp only [headAtMin, Bool.false_eq_true, if_false, detect_endpoints, axisCoord]
      exact ⟨fun q hq => argmaxIdx_ge Prod.snd roi (0, 0) q hq,
             fun q hq => argminIdx_le Prod.snd roi (0, 0) q hq⟩
  | left =>
      refine ⟨argminIdx_getD_mem _ roi (0, 0) hne, argmaxIdx_getD_mem _ roi (0, 0) hne, ?_⟩
      simp only [headAtMin, if_true, detect_endpoints, axisCoord]
      exact ⟨fun q hq => argminIdx_le Prod.fst roi (0, 0) q hq,
             fun q hq => argmaxIdx_ge Prod.fst roi (0, 0) q hq⟩
  | right =>
      refine ⟨argmaxIdx_getD_mem _ roi (0, 0) hne, argminIdx_getD_mem _ roi (0, 0) hne, ?_⟩
      simp only [headAtMin, Bool.false_eq_true, if_false, detect_endpoints, axisCoord]
      exact ⟨fun q hq => argmaxIdx_ge Prod.fst roi (0, 0) q hq,
             fun q hq => argminIdx_le Prod.fst roi (0, 0) q hq⟩

/-- Concrete three-point contour used by the C5 witness. -/
def roiW5 : List Pt := [(0, 0), (1, 2), (2, 1)]

/-- Witness for C5 at the concrete contour roiW5 with the top strategy. -/
theorem larva_C5_witness :
    3 ≤ roiW5.length ∧
    ((detect_endpoints .top roiW5).1 ∈ roiW5 ∧ (detect_endpoints .top roiW5).2 ∈ roiW5 ∧
    (if headAtMin .top then
      (∀ q ∈ roiW5, axisCoord .top (detect_endpoints .top roiW5).1 ≤ axisCoord .top q) ∧
      (∀ q ∈ roiW5, axisCoord .top q ≤ axisCoord .top (detect_endpoints .top roiW5).2)
    else
      (∀ q ∈ roiW5, axisCoord .top q ≤ axisCoord .top (detect_endpoints .top roiW5).1) ∧
      (∀ q ∈ roiW5, axisCoord .top (detect_endpoints .top roiW5).2 ≤ axisCoord .top q))) :=
  ⟨by decide, larva_C5 .top roiW5 (by decide)⟩

/-! ## Turning angle (source: `analyze_all_frames`, lines 3133-3142)

The source computes `angle_diff = angles[i] - angles[i-1]` and then runs
`while angle_diff > 180: angle_diff -= 360` followed by
`while angle_diff < -180: angle_diff += 360`.  The two while loops are
modelled as terminating recursions on exact rationals. -/

/-- First normalization loop: repeatedly subtract 360 while the value
exceeds 180. -/
def normalize_sub (d : ℚ) : ℚ :=
  if h : 180 < d then normalize_sub (d - 360) else d
termination_by ⌈d⌉.toNat
decreasing_by
  have h1 : (180 : ℤ) < ⌈d⌉ := by
    have hc := Int.le_ceil d
    exact_mod_cast lt_of_lt_of_le h hc
  have h2 : ⌈d - 360⌉ = ⌈d⌉ - 360 := by
    exact_mod_cast Int.ceil_sub_int d (360 : ℤ)
  rw [h2]
  omega

/-- Second normalization loop: repeatedly add 360 while the value is below
-180. -/
def normalize_add (d : ℚ) : ℚ :=
  if h : d < -180 then normalize_add (d + 360) else d
termination_by (-⌊d⌋).toNat
decreasing_by
  have h1 : ⌊d⌋ < -180 := by
    have hf := Int.floor_le d
    exact_mod_cast lt_of_le_of_lt hf h
  have h2 : ⌊d + 360⌋ = ⌊d⌋ + 360 := by
    exact_mod_cast Int.floor_add_int d (360 : ℤ)
  rw [h2]
  omega

/-- Frame-to-frame turning angle: difference of consecutive body angles
normalized by the two while loops of the source. -/
def turning_angle (prev curr : ℚ) : ℚ :=
  normalize_add (normalize_sub (curr - prev))

theorem normalize_sub_le (d : ℚ) : normalize_sub d ≤ 180 := by
  induction d using normalize_sub.induct with
  | case1 d h ih => rw [normalize_sub, dif_pos h]; exact ih
  | case2 d h => rw [normalize_sub, dif_neg h]; linarith [not_lt.mp h]

theorem normalize_sub_shift (d : ℚ) : ∃ k : ℤ, normalize_sub d = d - 360 * k := by
  induction d using normalize_sub.induct with
  | case1 d h ih =>
      obtain ⟨k, hk⟩ := ih
      refine ⟨k + 1, ?_⟩
      rw [normalize_sub, dif_pos h, hk]
      push_cast
      ring
  | case2 d h => exact ⟨0, by rw [normalize_sub, dif_neg h]; ring⟩

theorem normalize_add_ge (d : ℚ) : -180 ≤ normalize_add d := by
  induction d using normalize_add.induct with
  | case1 d h ih => rw [normalize_add, dif_pos h]; exact ih
  | case2 d h => rw [normalize_add, dif_neg h]; linarith [not_lt.mp h]

theorem normalize_add_le (d : ℚ) (hd : d ≤ 180) : normalize_add d ≤ 180 := by
  induction d using normalize_add.induct with
  | case1 d h ih => rw [normalize_add, dif_pos h]; exact ih (by linarith)
  | case2 d h => rw [normalize_add, dif_neg h]; exact hd

theorem normalize_add_shift (d : ℚ) : ∃ k : ℤ, normalize_add d = d + 360 * k := by
  induction d using normalize_add.induct with
  | case1 d h ih =>
      obtain ⟨k, hk⟩ := ih
      refine ⟨k + 1, ?_⟩
      rw [normalize_add, dif_pos h, hk]
      push_cast
      ring
  | case2 d h => exact ⟨0, by rw [normalize_add, dif_neg h]; ring⟩

/-- C4 counterexample: body angles 170 then -10 give a turning angle of
exactly -180, which does not lie in the half-open interval (-180, 180]
demanded by the claim. -/
theorem larva_C4_counterexample :
    turning_angle 170 (-10) = -180 ∧ ¬(-180 < turning_angle 170 (-10)) := by
  have h : turning_angle 170 (-10) = -180 := by
    rw [turning_angle]
    norm_num
    rw [normalize_sub, dif_neg (by norm_num)]
    rw [normalize_add, dif_neg (by norm_num)]
  exact ⟨h, by rw [h]; norm_num⟩

/-- C4 (amended): the turning angle equals curr - prev shifted by an integer
multiple of 360 and lies in the closed interval [-180, 180]; in particular,
body angles 170 then -170 yield a turning angle of exactly 20. -/
theorem larva_C4_amended :
    (∀ prev curr : ℚ,
      (∃ k : ℤ, turning_angle prev curr = (curr - prev) + 360 * k) ∧
      -180 ≤ turning_angle prev curr ∧ turning_angle prev curr ≤ 180) ∧
    turning_angle 170 (-170) = 20 := by
  constructor
  · intro prev curr
    refine ⟨?_, normalize_add_ge _, normalize_add_le _ (normalize_sub_le _)⟩
    obtain ⟨k1, hk1⟩ := normalize_sub_shift (curr - prev)
    obtain ⟨k2, hk2⟩ := normalize_add_shift (normalize_sub (curr - prev))
    refine ⟨k2 - k1, ?_⟩
    rw [turning_angle, hk2, hk1]
    push_cast
    ring
  · rw [turning_angle]
    norm_num
    rw [normalize_sub, dif_neg (by norm_num)]
    rw [normalize_add, dif_pos (by norm_num)]
    norm_num
    rw [normalize_add, dif_neg (by norm_num)]

/-! ## Batch endpoint operations
(source: `apply_endpoints_to_all`, lines 2630-2656, and
`force_redetect_all`, lines 2658-2695)

The per-frame stores `self.head_positions` and `self.tail_positions` are
dictionaries from frame index to point; they are modelled as functions from
ℕ to an optional point (`none` = key absent).  The ROI list may hold `none`
at frames without a contour.  Both batch operations iterate
`for i in range(len(self.rois))` and only touch keys equal to the loop
index; the loops are modelled as left folds over `List.range`. -/

/-- The contour stored for frame `i` (if any): `self.rois[i]` with `None`
for a missing contour, and out-of-range indices also yielding none. -/
def roiAt (rois : List (Option (List Pt))) (i : ℕ) : Option (List Pt) :=
  (rois.get? i).getD none

/-- Dictionary update at one key. -/
def updF (f : ℕ → Option Pt) (i : ℕ) (v : Pt) : ℕ → Option Pt :=
  fun j => if j = i then some v else f j

/-- The pair of per-frame endpoint dictionaries (heads, tails). -/
abbrev EndpointState := (ℕ → Option Pt) × (ℕ → Option Pt)

/-- One iteration of the apply-to-all loop (source lines 2639-2649): if
frame `i` has a contour and is missing either its head or its tail entry,
detect endpoints for it and store both; otherwise leave the state alone. -/
def applyStep (strat : Strategy) (rois : List (Option (List Pt)))
    (st : EndpointState) (i : ℕ) : EndpointState :=
  match roiAt rois i with
  | none => st
  | some roi =>
      if st.1 i = none ∨ st.2 i = none then
        (updF st.1 i (detect_endpoints strat roi).1,
         updF st.2 i (detect_endpoints strat roi).2)
      else st

/-- Apply-to-all batch operation: detect endpoints for every frame with a
contour that is missing either entry, preserving frames that have both. -/
def apply_endpoints_to_all (strat : Strategy) (rois : List (Option (List Pt)))
    (heads tails : ℕ → Option Pt) : EndpointState :=
  (List.range rois.length).foldl (applyStep strat rois) (heads, tails)

/-- One iteration of the force-redetect loop (source lines 2686-2690):
unconditionally detect and store endpoints for every frame with a contour. -/
def forceStep (strat : Strategy) (rois : List (Option (List Pt)))
    (st : EndpointState) (i : ℕ) : EndpointState :=
  match roiAt rois i with
  | none => st
  | some roi =>
      (updF st.1 i (detect_endpoints strat roi).1,
       updF st.2 i (detect_endpoints strat roi).2)

/-- Force-redetect-all batch operation (after the user confirms): both
dictionaries are cleared (source lines 2683-2684) and every frame with a
contour is re-detected.  The previous stores are parameters only to record
that they are discarded wholesale. -/
def force_redetect_all (strat : Strategy) (rois : List (Option (List Pt)))
    (_heads _tails : ℕ → Option Pt) : EndpointState :=
  (List.range rois.length).foldl (forceStep strat rois) (fun _ => none, fun _ => none)

/-- A left fold of per-index steps that each touch only their own key is
characterised pointwise: indices outside the list are untouched, and an
index occurring once in the list receives exactly one application of the
per-key transformation `φ`. -/
theorem foldl_pointwise (g : EndpointState → ℕ → EndpointState)
    (φ : ℕ → Option Pt → Option Pt → Option Pt × Option Pt)
    (hg_ne : ∀ st i j, j ≠ i → ((g st i).1 j, (g st i).2 j) = (st.1 j, st.2 j))
    (hg_eq : ∀ st i, ((g st i).1 i, (g st i).2 i) = φ i (st.1 i) (st.2 i)) :
    ∀ (l : List ℕ) (st : EndpointState) (j : ℕ), l.Nodup →
      (j ∉ l → ((l.foldl g st).1 j, (l.foldl g st).2 j) = (st.1 j, st.2 j)) ∧
      (j ∈ l → ((l.foldl g st).1 j, (l.foldl g st).2 j) = φ j (st.1 j) (st.2 j)) := by
  intro l
  induction l with
  | nil => intro st j _; exact ⟨fun _ => rfl, fun h => absurd h (by simp)⟩
  | cons a l ih =>
      intro st j hnd
      have hnd' : l.Nodup := (List.nodup_cons.mp hnd).2
      have hna : a ∉ l := (List.nodup_cons.mp hnd).1
      constructor
      · intro hj
        have hja : j ≠ a := fun h => hj (h ▸ List.mem_cons_self a l)
        have hjl : j ∉ l := fun h => hj (List.mem_cons_of_mem a h)
        have h1 := (ih (g st a) j hnd').1 hjl
        rw [List.foldl_cons, h1]
        exact hg_ne st a j hja
      · intro hj
        rcases List.mem_cons.mp hj with rfl | hjl
        · have h1 := (ih (g st j) j hnd').1 hna
          rw [List.foldl_cons, h1]
          exact hg_eq st j
        · have hja : j ≠ a := fun h => hna (h ▸ hjl)
          have h2 := (ih (g st a) j hnd').2 hjl
          rw [List.foldl_cons, h2]
          have h3 := hg_ne st a j hja
          have h31 : (g st a).1 j = st.1 j := congrArg Prod.fst h3
          have h32 : (g st a).2 j = st.2 j := congrArg Prod.snd h3
          rw [h31, h32]

/-- Per-key effect of the apply-to-all loop. -/
def applyAtKey (strat : Strategy) (rois : List (Option (List Pt))) (j : ℕ)
    (hj tj : Option Pt) : Option Pt × Option Pt :=
  match roiAt rois j with
  | none => (hj, tj)
  | some roi =>
      if hj = none ∨ tj = none then
        (some (detect_endpoints strat roi).1, some (detect_endpoints strat roi).2)
      else (hj, tj)

theorem applyAtKey_contour (strat : Strategy) (rois : List (Option (List Pt)))
    (j : ℕ) (hj tj : Option Pt) (roi : List Pt) (h : roiAt rois j = some roi) :
    applyAtKey strat rois j hj tj
      = if hj = none ∨ tj = none then
          (some (detect_endpoints strat roi).1, some (detect_endpoints strat roi).2)
        else (hj, tj) := by
  unfold applyAtKey
  rw [h]

theorem applyAtKey_no_contour (strat : Strategy) (rois : List (Option (List Pt)))
    (j : ℕ) (hj tj : Option Pt) (h : roiAt rois j = none) :
    applyAtKey strat rois j hj tj = (hj, tj) := by
  unfold applyAtKey
  rw [h]

theorem applyStep_ne (strat : Strategy) (rois : List (Option (List Pt)))
    (st : EndpointState) (i j : ℕ) (hji : j ≠ i) :
    ((applyStep strat rois st i).1 j, (applyStep strat rois st i).2 j)
      = (st.1 j, st.2 j) := by
  unfold applyStep
  cases roiAt rois i with
  | none => rfl
  | some roi =>
      by_cases hc : st.1 i = none ∨ st.2 i = none
      · simp [hc, updF, hji]
      · simp [hc]

theorem applyStep_eq (strat : Strategy) (rois : List (Option (List Pt)))
    (st : EndpointState) (i : ℕ) :
    ((applyStep strat rois st i).1 i, (applyStep strat rois st i).2 i)
      = applyAtKey strat rois i (st.1 i) (st.2 i) := by
  unfold applyStep applyAtKey
  cases roiAt rois i with
  | none => rfl
  | some roi =>
      by_cases hc : st.1 i = none ∨ st.2 i = none
      · simp [hc, updF]
      · simp [hc]

/-- Per-key effect of the force-redetect loop. -/
def forceAtKey (strat : Strategy) (rois : List (Option (List Pt))) (j : ℕ)
    (hj tj : Option Pt) : Option Pt × Option Pt :=
  match roiAt rois j with
  | none => (hj, tj)
  | some roi =>
      (some (detect_endpoints strat roi).1, some (detect_endpoints strat roi).2)

theorem forceAtKey_contour (strat : Strategy) (rois : List (Option (List Pt)))
    (j : ℕ) (hj tj : Option Pt) (roi : List Pt) (h : roiAt rois j = some roi) :
    forceAtKey strat rois j hj tj
      = (some (detect_endpoints strat roi).1, some (detect_endpoints strat roi).2) := by
  unfold forceAtKey
  rw [h]

theorem forceAtKey_no_contour (strat : Strategy) (rois : List (Option (List Pt)))
    (j : ℕ) (hj tj : Option Pt) (h : roiAt rois j = none) :
    forceAtKey strat rois j hj tj = (hj, tj) := by
  unfold forceAtKey
  rw [h]

theorem forceStep_ne (strat : Strategy) (rois : List (Option (List Pt)))
    (st : EndpointState) (i j : ℕ) (hji : j ≠ i) :
    ((forceStep strat rois st i).1 j, (forceStep strat rois st i).2 j)
      = (st.1 j, st.2 j) := by
  unfold forceStep
  cases roiAt rois i with
  | none => rfl
  | some roi => simp [updF, hji]

theorem forceStep_eq (strat : Strategy) (rois : List (Option (List Pt)))
    (st : EndpointState) (i : ℕ) :
    ((forceStep strat rois st i).1 i, (forceStep strat rois st i).2 i)
      = forceAtKey strat rois i (st.1 i) (st.2 i) := by
  unfold forceStep forceAtKey
  cases roiAt rois i with
  | none => rfl
  | some roi => simp [updF]

theorem apply_endpoints_pointwise (strat : Strategy)
    (rois : List (Option (List Pt))) (heads tails : ℕ → Option Pt) (j : ℕ) :
    ((apply_endpoints_to_all strat rois heads tails).1 j,
     (apply_endpoints_to_all strat rois heads tails).2 j)
      = if j < rois.length then applyAtKey strat rois j (heads j) (tails j)
        else (heads j, tails j) := by
  have h := foldl_pointwise (applyStep strat rois) (applyAtKey strat rois)
    (applyStep_ne strat rois) (applyStep_eq strat rois)
    (List.range rois.length) (heads, tails) j (List.nodup_range _)
  by_cases hj : j < rois.length
  · rw [if_pos hj]
    exact h.2 (List.mem_range.mpr hj)
  · rw [if_neg hj]
    exact h.1 (fun hm => hj (List.mem_range.mp hm))

theorem force_redetect_pointwise (strat : Strategy)
    (rois : List (Option (List Pt))) (heads tails : ℕ → Option Pt) (j : ℕ) :
    ((force_redetect_all strat rois heads tails).1 j,
     (force_redetect_all strat rois heads tails).2 j)
      = if j < rois.length then forceAtKey strat rois j none none
        else (none, none) := by
  have h := foldl_pointwise (forceStep strat rois) (forceAtKey strat rois)
    (forceStep_ne strat rois) (forceStep_eq strat rois)
    (List.range rois.length) (fun _ => none, fun _ => none) j (List.nodup_range _)
  by_cases hj : j < rois.length
  · rw [if_pos hj]
    exact h.2 (List.mem_range.mpr hj)
  · rw [if_neg hj]
    exact h.1 (fun hm => hj (List.mem_range.mp hm))

theorem roiAt_lt_length (rois : List (Option (List Pt))) (i : ℕ)
    (roi : List Pt) (h : roiAt rois i = some roi) : i < rois.length := by
  by_contra hlt
  push_neg at hlt
  unfold roiAt at h
  rw [List.get?_eq_none.mpr hlt] at h
  simp at h

/-- C3: the apply-to-all batch operation recomputes endpoints exactly for
frames that have a contour and are missing either entry, preserving any
frame that already has both; the confirmed force-redetect-all operation
recomputes every frame with a contour and discards every previously stored
entry (the result never depends on the prior stores). -/
theorem larva_C3 :
    (∀ (strat : Strategy) (rois : List (Option (List Pt)))
       (heads tails : ℕ → Option Pt) (i : ℕ),
       (heads i).isSome → (tails i).isSome →
         (apply_endpoints_to_all strat rois heads tails).1 i = heads i ∧
         (apply_endpoints_to_all strat rois heads tails).2 i = tails i) ∧
    (∀ (strat : Strategy) (rois : List (Option (List Pt)))
       (heads tails : ℕ → Option Pt) (i : ℕ) (roi : List Pt),
       roiAt rois i = some roi → (heads i = none ∨ tails i = none) →
         (apply_endpoints_to_all strat rois heads tails).1 i
           = some (detect_endpoints strat roi).1 ∧
         (apply_endpoints_to_all strat rois heads tails).2 i
           = some (detect_endpoints strat roi).2) ∧
    (∀ (strat : Strategy) (rois : List (Option (List Pt)))
       (heads tails : ℕ → Option Pt) (i : ℕ),
       roiAt rois i = none →
         (apply_endpoints_to_all strat rois heads tails).1 i = heads i ∧
         (apply_endpoints_to_all strat rois heads tails).2 i = tails i) ∧
    (∀ (strat : Strategy) (rois : List (Option (List Pt)))
       (heads tails : ℕ → Option Pt) (i : ℕ) (roi : List Pt),
       roiAt rois i = some roi →
         (force_redetect_all strat rois heads tails).1 i
           = some (detect_endpoints strat roi).1 ∧
         (force_redetect_all strat rois heads tails).2 i
           = some (detect_endpoints strat roi).2) ∧
    (∀ (strat : Strategy) (rois : List (Option (List Pt)))
       (heads tails : ℕ → Option Pt) (i : ℕ),
       roiAt rois i = none →
         (force_redetect_all strat rois heads tails).1 i = none ∧
         (force_redetect_all strat rois heads tails).2 i = none) := by
  refine ⟨?_, ?_, ?_, ?_, ?_⟩
  · intro strat rois heads tails i hh ht
    have h := apply_endpoints_pointwise strat rois heads tails i
    by_cases hj : i < rois.length
    · rw [if_pos hj] at h
      cases hro : roiAt rois i with
      | none =>
          rw [applyAtKey_no_contour strat rois i _ _ hro] at h
          exact ⟨congrArg Prod.fst h, congrArg Prod.snd h⟩
      | some roi =>
          have hc : ¬(heads i = none ∨ tails i = none) := by
            rintro (h1 | h2)
            · rw [h1] at hh; simp at hh
            · rw [h2] at ht; simp at ht
          rw [applyAtKey_contour strat rois i _ _ roi hro, if_neg hc] at h
          exact ⟨congrArg Prod.fst h, congrArg Prod.snd h⟩
    · rw [if_neg hj] at h
      exact ⟨congrArg Prod.fst h, congrArg Prod.snd h⟩
  · intro strat rois heads tails i roi hro hmiss
    have hj : i < rois.length := roiAt_lt_length rois i roi hro
    have h := apply_endpoints_pointwise strat rois heads tails i
    rw [if_pos hj, applyAtKey_contour strat rois i _ _ roi hro, if_pos hmiss] at h
    exact ⟨congrArg Prod.fst h, congrArg Prod.snd h⟩
  · intro strat rois heads tails i hro
    have h := apply_endpoints_pointwise strat rois heads tails i
    by_cases hj : i < rois.length
    · rw [if_pos hj, applyAtKey_no_contour strat rois i _ _ hro] at h
      exact ⟨congrArg Prod.fst h, congrArg Prod.snd h⟩
    · rw [if_neg hj] at h
      exact ⟨congrArg Prod.fst h, congrArg Prod.snd h⟩
  · intro strat rois heads tails i roi hro
    have hj : i < rois.length := roiAt_lt_length rois i roi hro
    have h := force_redetect_pointwise strat rois heads tails i
    rw [if_pos hj, forceAtKey_contour strat rois i _ _ roi hro] at h
    exact ⟨congrArg Prod.fst h, congrArg Prod.snd h⟩
  · intro strat rois heads tails i hro
    have h := force_redetect_pointwise strat rois heads tails i
    by_cases hj : i < rois.length
    · rw [if_pos hj, forceAtKey_no_contour strat rois i _ _ hro] at h
      exact ⟨congrArg Prod.fst h, congrArg Prod.snd h⟩
    · rw [if_neg hj] at h
      exact ⟨congrArg Prod.fst h, congrArg Prod.snd h⟩

/-- Concrete frame store for the C3 witness: one frame with a contour whose
head and tail entries are both present. -/
def roisW3 : List (Option (List Pt)) := [some roiW5]

/-- Witness for C3: with both entries present at frame 0, apply-to-all
leaves them unchanged. -/
theorem larva_C3_witness :
    ((fun _ : ℕ => some ((1, 2) : Pt)) 0).isSome ∧
    ((fun _ : ℕ => some ((3, 4) : Pt)) 0).isSome ∧
    ((apply_endpoints_to_all .top roisW3 (fun _ => some (1, 2)) (fun _ => some (3, 4))).1 0
        = (fun _ : ℕ => some ((1, 2) : Pt)) 0 ∧
      (apply_endpoints_to_all .top roisW3 (fun _ => some (1, 2)) (fun _ => some (3, 4))).2 0
        = (fun _ : ℕ => some ((3, 4) : Pt)) 0) :=
  ⟨rfl, rfl,
    larva_C3.1 .top roisW3 (fun _ => some (1, 2)) (fun _ => some (3, 4)) 0 rfl rfl⟩

/-- C9: after a confirmed force-redetect-all, a frame has head and tail
entries exactly when its contour is present; frames without a contour end
with no entries regardless of what was stored before, manual or not. -/
theorem larva_C9 (strat : Strategy) (rois : List (Option (List Pt)))
    (heads tails : ℕ → Option Pt) (i : ℕ) :
    ((force_redetect_all strat rois heads tails).1 i).isSome
        = (roiAt rois i).isSome ∧
    ((force_redetect_all strat rois heads tails).2 i).isSome
        = (roiAt rois i).isSome := by
  have h := force_redetect_pointwise strat rois heads tails i
  by_cases hj : i < rois.length
  · rw [if_pos hj] at h
    cases hro : roiAt rois i with
    | none =>
        rw [forceAtKey_no_contour strat rois i _ _ hro, Prod.mk.injEq] at h
        rw [h.1, h.2]
        exact ⟨rfl, rfl⟩
    | some roi =>
        rw [forceAtKey_contour strat rois i _ _ roi hro, Prod.mk.injEq] at h
        rw [h.1, h.2]
        exact ⟨rfl, rfl⟩
  · rw [if_neg hj] at h
    have hro : roiAt rois i = none := by
      unfold roiAt
      rw [List.get?_eq_none.mpr (le_of_not_lt hj)]
      rfl
    rw [Prod.mk.injEq] at h
    rw [h.1, h.2, hro]
    exact ⟨rfl, rfl⟩

/-! ## Arc length along the contour
(source: `calculate_arc_length_on_contour`, lines 2984-3028)

Distances are exact reals: the square root of the rational squared distance.
The nearest contour index is the numpy argmin of the Euclidean distances,
modelled as the argmin of squared distances (strictly monotone rewriting). -/

/-- Euclidean distance between two rational points, as a real number. -/
noncomputable def dist2 (p q : Pt) : ℝ := Real.sqrt ((sqDist p q : ℚ) : ℝ)

theorem sqDist_comm (p q : Pt) : sqDist p q = sqDist q p := by
  unfold sqDist
  ring

theorem dist2_comm (p q : Pt) : dist2 p q = dist2 q p := by
  unfold dist2
  rw [sqDist_comm]

/-- Evaluation helper: when the squared distance is a perfect rational
square, the distance is its nonnegative root. -/
theorem dist2_eval (p q : Pt) (k : ℚ) (hk : 0 ≤ k) (h : sqDist p q = k * k) :
    dist2 p q = (k : ℝ) := by
  unfold dist2
  rw [h]
  push_cast
  rw [show ((k : ℝ) * k) = (k : ℝ) ^ 2 by ring]
  exact Real.sqrt_sq (by exact_mod_cast hk)

/-- Index of the contour point nearest to `p` (numpy argmin over Euclidean
distances, realised over squared distances). -/
def nearestIdx (roi : List Pt) (p : Pt) : ℕ := argminIdx (fun r => sqDist r p) roi

theorem nearestIdx_lt (roi : List Pt) (p : Pt) (h : roi ≠ []) :
    nearestIdx roi p < roi.length := argminIdx_lt _ roi h

/-- The forward path of indices around the closed contour from `i1` to `i2`
(`path1_indices` of the source): either the contiguous range, or the wrap
through the end of the list. -/
def path1Idx (n i1 i2 : ℕ) : List ℕ :=
  if i1 ≤ i2 then List.range' i1 (i2 - i1 + 1)
  else List.range' i1 (n - i1) ++ List.range' 0 (i2 + 1)

/-- The forward path of indices from `i2` to `i1` (`path2_indices` of the
source). -/
def path2Idx (n i1 i2 : ℕ) : List ℕ :=
  if i2 ≤ i1 then List.range' i2 (i1 - i2 + 1)
  else List.range' i2 (n - i2) ++ List.range' 0 (i1 + 1)

theorem path2Idx_swap (n i1 i2 : ℕ) : path2Idx n i1 i2 = path1Idx n i2 i1 := rfl

theorem path1Idx_length (n i1 i2 : ℕ) :
    (path1Idx n i1 i2).length
      = if i1 ≤ i2 then i2 - i1 + 1 else (n - i1) + (i2 + 1) := by
  unfold path1Idx
  split <;> simp [List.length_range']

theorem path1Idx_length_ge_two (n i1 i2 : ℕ) (h12 : i1 ≠ i2)
    (h1 : i1 < n) (h2 : i2 < n) : 2 ≤ (path1Idx n i1 i2).length := by
  rw [path1Idx_length]
  split <;> omega

/-- Sum of consecutive-point Euclidean distances along a point list. -/
noncomputable def pathLength : List Pt → ℝ
  | [] => 0
  | [_] => 0
  | p :: q :: rest => dist2 p q + pathLength (q :: rest)

/-- The index path the source chooses: the shorter (by point count) of the
two paths between the nearest indices, the first path on ties. -/
def chosenPath (roi : List Pt) (point1 point2 : Pt) : List ℕ :=
  if (path1Idx roi.length (nearestIdx roi point1) (nearestIdx roi point2)).length
      ≤ (path2Idx roi.length (nearestIdx roi point1) (nearestIdx roi point2)).length
  then path1Idx roi.length (nearestIdx roi point1) (nearestIdx roi point2)
  else path2Idx roi.length (nearestIdx roi point1) (nearestIdx roi point2)

/-- Arc length along the contour between the points nearest to the two query
points: sum of consecutive distances along the chosen path, or the straight
distance when the path has fewer than 2 points. -/
noncomputable def calculate_arc_length_on_contour (point1 point2 : Pt)
    (roi : List Pt) : ℝ :=
  if (chosenPath roi point1 point2).length < 2 then dist2 point2 point1
  else pathLength ((chosenPath roi point1 point2).map (fun i => roi.getD i (0, 0)))

/-- Modelled from the spec wording of C7: ties between the two paths prefer
the path starting at the LOWER index; coinciding nearest indices give the
straight-line distance. -/
def specLowerPath (roi : List Pt) (point1 point2 : Pt) : List ℕ :=
  if (path1Idx roi.length (nearestIdx roi point1) (nearestIdx roi point2)).length
      < (path2Idx roi.length (nearestIdx roi point1) (nearestIdx roi point2)).length
  then path1Idx roi.length (nearestIdx roi point1) (nearestIdx roi point2)
  else if (path2Idx roi.length (nearestIdx roi point1) (nearestIdx roi point2)).length
      < (path1Idx roi.length (nearestIdx roi point1) (nearestIdx roi point2)).length
  then path2Idx roi.length (nearestIdx roi point1) (nearestIdx roi point2)
  else if nearestIdx roi point1 ≤ nearestIdx roi point2
  then path1Idx roi.length (nearestIdx roi point1) (nearestIdx roi point2)
  else path2Idx roi.length (nearestIdx roi point1) (nearestIdx roi point2)

/-- The spec formula for C7 as literally stated (lower-index tie rule). -/
noncomputable def arcLengthSpecLowerTie (point1 point2 : Pt) (roi : List Pt) : ℝ :=
  if nearestIdx roi point1 = nearestIdx roi point2 then dist2 point1 point2
  else pathLength ((specLowerPath roi point1 point2).map (fun i => roi.getD i (0, 0)))

/-- The amended spec formula for C7: ties prefer the path starting at the
nearest index of the FIRST query point. -/
def specFirstPath (roi : List Pt) (point1 point2 : Pt) : List ℕ :=
  if (path1Idx roi.length (nearestIdx roi point1) (nearestIdx roi point2)).length
      < (path2Idx roi.length (nearestIdx roi point1) (nearestIdx roi point2)).length
  then path1Idx roi.length (nearestIdx roi point1) (nearestIdx roi point2)
  else if (path2Idx roi.length (nearestIdx roi point1) (nearestIdx roi point2)).length
      < (path1Idx roi.length (nearestIdx roi point1) (nearestIdx roi point2)).length
  then path2Idx roi.length (nearestIdx roi point1) (nearestIdx roi point2)
  else path1Idx roi.length (nearestIdx roi point1) (nearestIdx roi point2)

noncomputable def arcLengthSpecFirstTie (point1 point2 : Pt) (roi : List Pt) : ℝ :=
  if nearestIdx roi point1 = nearestIdx roi point2 then dist2 point1 point2
  else pathLength ((specFirstPath roi point1 point2).map (fun i => roi.getD i (0, 0)))

theorem chosenPath_eq_specFirstPath (roi : List Pt) (point1 point2 : Pt) :
    chosenPath roi point1 point2 = specFirstPath roi point1 point2 := by
  unfold chosenPath specFirstPath
  rcases lt_trichotomy
      (path1Idx roi.length (nearestIdx roi point1) (nearestIdx roi point2)).length
      (path2Idx roi.length (nearestIdx roi point1) (nearestIdx roi point2)).length
    with h | h | h
  · rw [if_pos (le_of_lt h), if_pos h]
  · rw [if_pos (le_of_eq h), if_neg (by omega), if_neg (by omega)]
  · rw [if_neg (by omega), if_neg (by omega), if_pos h]

/-- The concrete quadrilateral contour used for the C7 and C10
counterexamples: the two arcs between indices 0 and 2 have equal point
count (3 each) but different lengths (4 + 3 = 7 versus 5 + 6 = 11). -/
def roiC7 : List Pt := [(0, 0), (4, 0), (4, 3), (0, 6)]

theorem arc_roiC7_forward :
    calculate_arc_length_on_contour (0, 0) (4, 3) roiC7 = 7 := by
  unfold calculate_arc_length_on_contour
  rw [show chosenPath roiC7 (0, 0) (4, 3) = [0, 1, 2] from by
    norm_num [chosenPath, nearestIdx, argminIdx, sqDist, roiC7, path1Idx, path2Idx, List.range']]
  rw [if_neg (by decide)]
  rw [show ([0, 1, 2].map (fun i => roiC7.getD i (0, 0)))
        = [((0 : ℚ), (0 : ℚ)), (4, 0), (4, 3)] from by decide]
  rw [show pathLength [((0 : ℚ), (0 : ℚ)), (4, 0), (4, 3)]
        = dist2 ((0 : ℚ), (0 : ℚ)) (4, 0) + (dist2 ((4 : ℚ), (0 : ℚ)) (4, 3) + 0) from rfl]
  rw [dist2_eval ((0 : ℚ), (0 : ℚ)) (4, 0) 4 (by norm_num) (by norm_num [sqDist]),
      dist2_eval ((4 : ℚ), (0 : ℚ)) (4, 3) 3 (by norm_num) (by norm_num [sqDist])]
  norm_num

theorem arc_roiC7_backward :
    calculate_arc_length_on_contour (4, 3) (0, 0) roiC7 = 11 := by
  unfold calculate_arc_length_on_contour
  rw [show chosenPath roiC7 (4, 3) (0, 0) = [2, 3, 0] from by
    norm_num [chosenPath, nearestIdx, argminIdx, sqDist, roiC7, path1Idx, path2Idx, List.range']]
  rw [if_neg (by decide)]
  rw [show ([2, 3, 0].map (fun i => roiC7.getD i (0, 0)))
        = [((4 : ℚ), (3 : ℚ)), (0, 6), (0, 0)] from by decide]
  rw [show pathLength [((4 : ℚ), (3 : ℚ)), (0, 6), (0, 0)]
        = dist2 ((4 : ℚ), (3 : ℚ)) (0, 6) + (dist2 ((0 : ℚ), (6 : ℚ)) (0, 0) + 0) from rfl]
  rw [dist2_eval ((4 : ℚ), (3 : ℚ)) (0, 6) 5 (by norm_num) (by norm_num [sqDist]),
      dist2_eval ((0 : ℚ), (6 : ℚ)) (0, 0) 6 (by norm_num) (by norm_num [sqDist])]
  norm_num

theorem arc_roiC7_spec_lower :
    arcLengthSpecLowerTie (4, 3) (0, 0) roiC7 = 7 := by
  unfold arcLengthSpecLowerTie
  rw [if_neg (by norm_num [nearestIdx, argminIdx, sqDist, roiC7])]
  rw [show specLowerPath roiC7 (4, 3) (0, 0) = [0, 1, 2] from by
    norm_num [specLowerPath, nearestIdx, argminIdx, sqDist, roiC7, path1Idx, path2Idx,
      List.range']]
  rw [show ([0, 1, 2].map (fun i => roiC7.getD i (0, 0)))
        = [((0 : ℚ), (0 : ℚ)), (4, 0), (4, 3)] from by decide]
  rw [show pathLength [((0 : ℚ), (0 : ℚ)), (4, 0), (4, 3)]
        = dist2 ((0 : ℚ), (0 : ℚ)) (4, 0) + (dist2 ((4 : ℚ), (0 : ℚ)) (4, 3) + 0) from rfl]
  rw [dist2_eval ((0 : ℚ), (0 : ℚ)) (4, 0) 4 (by norm_num) (by norm_num [sqDist]),
      dist2_eval ((4 : ℚ), (0 : ℚ)) (4, 3) 3 (by norm_num) (by norm_num [sqDist])]
  norm_num

/-- C7 counterexample: on the quadrilateral roiC7 with query points (4,3)
and (0,0) the two candidate paths tie in point count; the code keeps the
path starting at the nearest index of the first query point (index 2,
length 11), not the path starting at the lower index (index 0, length 7),
so the result differs from the spec formula. -/
theorem larva_C7_counterexample :
    calculate_arc_length_on_contour (4, 3) (0, 0) roiC7
      ≠ arcLengthSpecLowerTie (4, 3) (0, 0) roiC7 := by
  rw [arc_roiC7_backward, arc_roiC7_spec_lower]
  norm_num

/-- C7 (amended): the arc length equals the sum of consecutive distances
along the shorter (by point count) of the two paths between the nearest
indices, with ties preferring the path that starts at the nearest index of
the FIRST query point; coinciding nearest indices give the straight-line
distance between the query points. -/
theorem larva_C7_amended (point1 point2 : Pt) (roi : List Pt)
    (hroi : 3 ≤ roi.length) :
    calculate_arc_length_on_contour point1 point2 roi
      = arcLengthSpecFirstTie point1 point2 roi := by
  have hne : roi ≠ [] := by
    intro h
    rw [h] at hroi
    simp at hroi
  unfold calculate_arc_length_on_contour arcLengthSpecFirstTie
  by_cases hi : nearestIdx roi point1 = nearestIdx roi point2
  · have hpath : chosenPath roi point1 point2 = [nearestIdx roi point2] := by
      unfold chosenPath
      rw [hi, path2Idx_swap]
      rw [if_pos (le_refl _)]
      unfold path1Idx
      rw [if_pos (le_refl _), Nat.sub_self]
      rfl
    rw [if_pos hi, hpath]
    simp only [List.length_cons, List.length_nil]
    rw [if_pos (by norm_num)]
    exact dist2_comm point2 point1
  · have h1 : nearestIdx roi point1 < roi.length := nearestIdx_lt roi point1 hne
    have h2 : nearestIdx roi point2 < roi.length := nearestIdx_lt roi point2 hne
    have hga : 2 ≤ (path1Idx roi.length (nearestIdx roi point1)
        (nearestIdx roi point2)).length :=
      path1Idx_length_ge_two _ _ _ hi h1 h2
    have hgb : 2 ≤ (path2Idx roi.length (nearestIdx roi point1)
        (nearestIdx roi point2)).length := by
      rw [path2Idx_swap]
      exact path1Idx_length_ge_two _ _ _ (Ne.symm hi) h2 h1
    have hg : 2 ≤ (chosenPath roi point1 point2).length := by
      unfold chosenPath
      split
      · exact hga
      · exact hgb
    rw [if_neg (by omega), if_neg hi, chosenPath_eq_specFirstPath]

/-- Concrete triangle and query points for the C7 and C10 witnesses: the
two candidate paths have unequal point counts. -/
def roiTri : List Pt := [(0, 0), (4, 0), (0, 3)]

/-- Witness for the amended C7 theorem at a concrete triangle. -/
theorem larva_C7_witness :
    3 ≤ roiTri.length ∧
    calculate_arc_length_on_contour (0, 0) (4, 0) roiTri
      = arcLengthSpecFirstTie (0, 0) (4, 0) roiTri :=
  ⟨by decide, larva_C7_amended (0, 0) (4, 0) roiTri (by decide)⟩

/-- C10 counterexample: arc length on roiC7 is not symmetric in its two
query points (7 one way, 11 the other), because the point-count tie is
broken in favour of the path starting at the first query point. -/
theorem larva_C10_counterexample :
    calculate_arc_length_on_contour (0, 0) (4, 3) roiC7
      ≠ calculate_arc_length_on_contour (4, 3) (0, 0) roiC7 := by
  rw [arc_roiC7_forward, arc_roiC7_backward]
  norm_num

/-- C10 (amended): the arc-length computation is symmetric in the two query
points whenever the two candidate paths between the nearest indices differ
in point count, or the two nearest indices coincide; only the exact
point-count tie with distinct nearest indices may break symmetry. -/
theorem larva_C10_amended (point1 point2 : Pt) (roi : List Pt)
    (hroi : 3 ≤ roi.length)
    (hcase : nearestIdx roi point1 = nearestIdx roi point2 ∨
      (path1Idx roi.length (nearestIdx roi point1) (nearestIdx roi point2)).length
        ≠ (path2Idx roi.length (nearestIdx roi point1) (nearestIdx roi point2)).length) :
    calculate_arc_length_on_contour point1 point2 roi
      = calculate_arc_length_on_contour point2 point1 roi := by
  have hswap : chosenPath roi point1 point2 = chosenPath roi point2 point1 := by
    unfold chosenPath
    rw [path2Idx_swap, path2Idx_swap]
    rcases hcase with hi | hlen
    · rw [hi]
    · rw [path2Idx_swap] at hlen
      rcases lt_or_gt_of_ne hlen with h | h
      · rw [if_pos (le_of_lt h), if_neg (by omega)]
      · rw [if_neg (by omega), if_pos (le_of_lt h)]
  unfold calculate_arc_length_on_contour
  rw [hswap]
  split
  · exact dist2_comm point2 point1
  · rfl

/-- Witness for the amended C10 theorem at a concrete triangle where the two
candidate paths have 2 and 3 points. -/
theorem larva_C10_witness :
    3 ≤ roiTri.length ∧
    (nearestIdx roiTri (0, 0) = nearestIdx roiTri (4, 0) ∨
      (path1Idx roiTri.length (nearestIdx roiTri (0, 0)) (nearestIdx roiTri (4, 0))).length
        ≠ (path2Idx roiTri.length (nearestIdx roiTri (0, 0)) (nearestIdx roiTri (4, 0))).length) ∧
    calculate_arc_length_on_contour (0, 0) (4, 0) roiTri
      = calculate_arc_length_on_contour (4, 0) (0, 0) roiTri :=
  ⟨by decide, Or.inr (by
      norm_num [path1Idx, path2Idx, nearestIdx, argminIdx, sqDist, roiTri, List.range']),
    larva_C10_amended (0, 0) (4, 0) roiTri (by decide) (Or.inr (by
      norm_num [path1Idx, path2Idx, nearestIdx, argminIdx, sqDist, roiTri, List.range']))⟩

/-! ## Midline extraction
(source: `calculate_midline` lines 2107-2119,
`calculate_simple_midline` lines 2121-2197,
`calculate_skeleton_midline` lines 2199-2348)

The scipy spline fit-and-resample (`splprep` + `splev`) is modelled as an
oracle `spl : List Pt → Option (List Pt)`: applied to the points handed to
`splprep` it returns the 98 resampled points, or none when the library call
throws (the except branches of the source).  The cv2 / skimage pipeline of
the skeleton method (rasterization, morphology, largest component,
skeletonization, lines 2202-2256) is modelled as an optional list of
skeleton points `skel`; none covers the failure exits of that pipeline. -/

/-- Centroid of a list of points (numpy mean along axis 0). -/
def centroid (l : List Pt) : Pt := smul (1 / l.length) (l.foldl padd (0, 0))

/-- The 28 interior candidate midline points of the simple method (loop at
source lines 2142-2165): for i = 1..28 and t = i / 29, the centroid of the
contour points whose projection on the head-tail axis falls within the
sliding window, or the axis point when no contour point does.  The window
test `|proj - t * L| < 1.5 * L / 29` of the source (with proj the dot
product divided by the axis length L) is multiplied through by L > 0, so
every compared quantity is rational: `|dot - t * L^2| < 1.5 * L^2 / 29`.
This is equivalent whenever L >= 1, which holds on every path that uses
these points. -/
def simpleInterior (roi : List Pt) (head tail : Pt) : List Pt :=
  (List.range 28).map (fun (k : ℕ) =>
    let t : ℚ := ((k : ℚ) + 1) / 29
    let nearby := roi.filter (fun r =>
      |dotP (psub r head) (psub tail head) - t * sqDist tail head|
        < (3 / 2) * sqDist tail head / 29)
    if nearby.length ≠ 0 then centroid nearby
    else padd head (smul t (psub tail head)))

/-- The raw 30-point midline of the simple method: head, the 28 interior
points, tail (the source forces both endpoints, lines 2139 and 2168). -/
def simpleMidpoints (roi : List Pt) (head tail : Pt) : List Pt :=
  head :: simpleInterior roi head tail ++ [tail]

/-- Simple-interpolation midline.  The guard `axis_length < 1` is compared
on squared lengths (equivalent since both sides are nonnegative).  When the
raw midline has more than 4 points its interior is splined and resampled;
a throwing spline falls back to the raw points (source lines 2176-2191). -/
def calculate_simple_midline (spl : List Pt → Option (List Pt))
    (roi : List Pt) (head tail : Pt) : Option (List Pt) :=
  if sqDist tail head < 1 then none
  else if (simpleMidpoints roi head tail).length < 3 then none
  else if 4 < (simpleMidpoints roi head tail).length then
    match spl (((simpleMidpoints roi head tail).drop 1).dropLast) with
    | some smooth => some (head :: smooth ++ [tail])
    | none => some (simpleMidpoints roi head tail)
  else some (simpleMidpoints roi head tail)

/-- One run of the greedy nearest-neighbour walk over the skeleton points
(source lines 2267-2304).  `remaining` is the set of unvisited indices,
kept as an ascending list (the iteration order of the Python set of small
ints); the walk appends the nearest unvisited point while it is within the
15-pixel step threshold (squared: 225), jumps directly to the point nearest
the tail when the threshold is exceeded and that point is unvisited (the
code then stops, having reached the end index), stops when nothing is
reachable, and stops after reaching the end index.  Fuel bounds the number
of iterations; `remaining` shrinks by one per step, so `skel.length` fuel
is never exhausted. -/
def walkAux (skel : List Pt) (endIdx : ℕ) :
    ℕ → ℕ → List ℕ → List Pt → List Pt
  | 0, _, _, acc => acc
  | fuel + 1, cur, remaining, acc =>
      match remaining with
      | [] => acc
      | r0 :: rs =>
          let minIdx := (r0 :: rs).getD
            (argminIdx (fun i => sqDist (skel.getD i (0, 0)) (skel.getD cur (0, 0)))
              (r0 :: rs)) 0
          if 225 < sqDist (skel.getD minIdx (0, 0)) (skel.getD cur (0, 0)) then
            if endIdx ∈ (r0 :: rs) then acc ++ [skel.getD endIdx (0, 0)]
            else acc
          else
            if minIdx = endIdx then acc ++ [skel.getD minIdx (0, 0)]
            else walkAux skel endIdx fuel minIdx ((r0 :: rs).erase minIdx)
                   (acc ++ [skel.getD minIdx (0, 0)])

/-- Ordering of the skeleton points from head to tail (source lines
2258-2306): start at the skeleton point nearest the head and walk greedily
toward the point nearest the tail. -/
def orderSkeleton (skel : List Pt) (head tail : Pt) : List Pt :=
  walkAux skel (argminIdx (fun q => sqDist q tail) skel) skel.length
    (argminIdx (fun q => sqDist q head) skel)
    ((List.range skel.length).filter
      (fun i => i ≠ argminIdx (fun q => sqDist q head) skel))
    [skel.getD (argminIdx (fun q => sqDist q head) skel) (0, 0)]

/-- Python slice `l[::step]`: every step-th element starting at index 0. -/
def everyNth (l : List Pt) (step : ℕ) : List Pt :=
  (List.range l.length).filterMap (fun i =>
    if i % step = 0 then l.get? i else none)

/-- Skeleton-based midline over the abstracted skeleton points: fails when
fewer than 5 skeleton points exist or the ordered walk has fewer than 5
points; walks longer than 10 points are subsampled to about 30 and splined,
with the raw subsample (endpoints forced) as fallback whenever the spline
throws or the subsample is shorter than 4; short walks are returned with
forced endpoints directly (source lines 2249-2342). -/
def calculate_skeleton_midline (spl : List Pt → Option (List Pt)) :
    Option (List Pt) → Pt → Pt → Option (List Pt)
  | none, _, _ => none
  | some skelPts, head, tail =>
      if skelPts.length < 5 then none
      else if (orderSkeleton skelPts head tail).length < 5 then none
      else if 10 < (orderSkeleton skelPts head tail).length then
        if (everyNth (orderSkeleton skelPts head tail)
              (max 1 ((orderSkeleton skelPts head tail).length / 30))).length < 4 then
          some (head :: everyNth (orderSkeleton skelPts head tail)
              (max 1 ((orderSkeleton skelPts head tail).length / 30)) ++ [tail])
        else
          match spl (everyNth (orderSkeleton skelPts head tail)
              (max 1 ((orderSkeleton skelPts head tail).length / 30))) with
          | some smooth => some (head :: smooth ++ [tail])
          | none => some (head :: everyNth (orderSkeleton skelPts head tail)
              (max 1 ((orderSkeleton skelPts head tail).length / 30)) ++ [tail])
      else some (head :: orderSkeleton skelPts head tail ++ [tail])

/-- The midline method selected in the combo box. -/
inductive MidlineMode : Type
  | simple
  | skeleton

/-- Midline dispatch (source lines 2107-2119): the simple mode runs the
interpolation method; the skeleton mode runs the skeleton method and
silently falls back to the interpolation method when it fails. -/
def calculate_midline (mode : MidlineMode) (spl : List Pt → Option (List Pt))
    (skel : Option (List Pt)) (roi : List Pt) (head tail : Pt) : Option (List Pt) :=
  match mode with
  | .simple => calculate_simple_midline spl roi head tail
  | .skeleton =>
      match calculate_skeleton_midline spl skel head tail with
      | none => calculate_simple_midline spl roi head tail
      | some m => some m

theorem sandwich_head_getLast (head tail : Pt) (l : List Pt) :
    (head :: l ++ [tail]).head? = some head ∧
    (head :: l ++ [tail]).getLast? = some tail := by
  constructor
  · rfl
  · rw [show head :: l ++ [tail] = (head :: l) ++ [tail] from rfl]
    exact List.getLast?_concat _

/-- C1: whenever either midline algorithm succeeds, the returned point
sequence starts exactly at the head and ends exactly at the tail, on every
return path (spline success, spline-failure fallback, and the short-path
cases). -/
theorem larva_C1 :
    (∀ (spl : List Pt → Option (List Pt)) (roi : List Pt) (head tail : Pt)
       (m : List Pt), 3 ≤ roi.length →
       calculate_simple_midline spl roi head tail = some m →
         m.head? = some head ∧ m.getLast? = some tail) ∧
    (∀ (spl : List Pt → Option (List Pt)) (skel : Option (List Pt))
       (head tail : Pt) (m : List Pt),
       calculate_skeleton_midline spl skel head tail = some m →
         m.head? = some head ∧ m.getLast? = some tail) := by
  constructor
  · intro spl roi head tail m _ h
    unfold calculate_simple_midline at h
    split at h
    · exact absurd h (by simp)
    · split at h
      · exact absurd h (by simp)
      · split at h
        · split at h
          · next smooth _ =>
              rw [Option.some.injEq] at h
              subst h
              exact sandwich_head_getLast head tail smooth
          · rw [Option.some.injEq] at h
            subst h
            exact sandwich_head_getLast head tail (simpleInterior roi head tail)
        · rw [Option.some.injEq] at h
          subst h
          exact sandwich_head_getLast head tail (simpleInterior roi head tail)
  · intro spl skel head tail m h
    cases skel with
    | none => exact absurd h (by simp [calculate_skeleton_midline])
    | some skelPts =>
        simp only [calculate_skeleton_midline] at h
        split at h
        · exact absurd h (by simp)
        · split at h
          · exact absurd h (by simp)
          · split at h
            · split at h
              · rw [Option.some.injEq] at h
                subst h
                exact sandwich_head_getLast head tail _
              · split at h
                · next smooth _ =>
                    rw [Option.some.injEq] at h
                    subst h
                    exact sandwich_head_getLast head tail smooth
                · rw [Option.some.injEq] at h
                  subst h
                  exact sandwich_head_getLast head tail _
            · rw [Option.some.injEq] at h
              subst h
              exact sandwich_head_getLast head tail _

/-- Spline oracle that always succeeds with an empty interior (used by
witnesses to keep results small). -/
def splEmpty : List Pt → Option (List Pt) := fun _ => some []

/-- Spline oracle that always throws. -/
def splNone : List Pt → Option (List Pt) := fun _ => none

theorem simpleInterior_length (roi : List Pt) (head tail : Pt) :
    (simpleInterior roi head tail).length = 28 := by
  unfold simpleInterior
  rw [List.length_map, List.length_range]

theorem simpleMidpoints_length (roi : List Pt) (head tail : Pt) :
    (simpleMidpoints roi head tail).length = 30 := by
  unfold simpleMidpoints
  simp [List.length_cons, List.length_append, simpleInterior_length]

theorem calc_simple_witness_eval :
    calculate_simple_midline splEmpty roiW5 (0, 0) (10, 0)
      = some [(0, 0), (10, 0)] := by
  unfold calculate_simple_midline
  rw [if_neg (by norm_num [sqDist])]
  rw [if_neg (by rw [simpleMidpoints_length]; norm_num)]
  rw [if_pos (by rw [simpleMidpoints_length]; norm_num)]
  rfl

/-- A concrete 5-point skeleton for the C1 witness. -/
def skelW : List Pt := [(0, 0), (1, 0), (2, 0), (3, 0), (4, 0)]

theorem orderSkeleton_skelW :
    orderSkeleton skelW (0, 0) (4, 0) = skelW := by
  unfold orderSkeleton
  rw [show argminIdx (fun q => sqDist q ((0 : ℚ), (0 : ℚ))) skelW = 0 from by
    norm_num [argminIdx, sqDist, skelW]]
  rw [show argminIdx (fun q => sqDist q ((4 : ℚ), (0 : ℚ))) skelW = 4 from by
    norm_num [argminIdx, sqDist, skelW]]
  rw [show (List.range skelW.length).filter (fun i => i ≠ 0) = [1, 2, 3, 4] from by decide]
  rw [show skelW.length = 5 from rfl]
  norm_num [walkAux, argminIdx, sqDist, skelW, List.getD, List.erase]

theorem calc_skeleton_witness_eval :
    calculate_skeleton_midline splEmpty (some skelW) (0, 0) (4, 0)
      = some [(0, 0), (0, 0), (1, 0), (2, 0), (3, 0), (4, 0), (4, 0)] := by
  simp only [calculate_skeleton_midline]
  rw [orderSkeleton_skelW]
  rw [if_neg (by decide), if_neg (by decide), if_neg (by decide)]
  rfl

/-- Witness for C1: both algorithms at concrete inputs, with the returned
sequences starting at the head and ending at the tail. -/
theorem larva_C1_witness :
    (3 ≤ roiW5.length ∧
      calculate_simple_midline splEmpty roiW5 (0, 0) (10, 0)
        = some [(0, 0), (10, 0)] ∧
      ([((0 : ℚ), (0 : ℚ)), (10, 0)].head? = some ((0 : ℚ), (0 : ℚ)) ∧
        [((0 : ℚ), (0 : ℚ)), (10, 0)].getLast? = some ((10 : ℚ), (0 : ℚ)))) ∧
    (calculate_skeleton_midline splEmpty (some skelW) (0, 0) (4, 0)
        = some [(0, 0), (0, 0), (1, 0), (2, 0), (3, 0), (4, 0), (4, 0)] ∧
      ([((0 : ℚ), (0 : ℚ)), (0, 0), (1, 0), (2, 0), (3, 0), (4, 0), (4, 0)].head?
          = some ((0 : ℚ), (0 : ℚ)) ∧
        [((0 : ℚ), (0 : ℚ)), (0, 0), (1, 0), (2, 0), (3, 0), (4, 0), (4, 0)].getLast?
          = some ((4 : ℚ), (0 : ℚ)))) :=
  ⟨⟨by decide, calc_simple_witness_eval,
      larva_C1.1 splEmpty roiW5 (0, 0) (10, 0) [(0, 0), (10, 0)] (by decide)
        calc_simple_witness_eval⟩,
    ⟨calc_skeleton_witness_eval,
      larva_C1.2 splEmpty (some skelW) (0, 0) (4, 0)
        [(0, 0), (0, 0), (1, 0), (2, 0), (3, 0), (4, 0), (4, 0)]
        calc_skeleton_witness_eval⟩⟩

/-- C2: whenever the skeleton method fails, the skeleton-mode dispatch
returns exactly what the simple-interpolation-mode dispatch returns on the
same inputs, rather than reporting failure. -/
theorem larva_C2 (spl : List Pt → Option (List Pt)) (skel : Option (List Pt))
    (roi : List Pt) (head tail : Pt)
    (h : calculate_skeleton_midline spl skel head tail = none) :
    calculate_midline .skeleton spl skel roi head tail
      = calculate_midline .simple spl skel roi head tail := by
  unfold calculate_midline
  rw [h]

/-- Witness for C2: a skeleton with no points makes the skeleton method
fail, and the skeleton-mode dispatch agrees with the simple mode. -/
theorem larva_C2_witness :
    calculate_skeleton_midline splNone (some []) (0, 0) (4, 0) = none ∧
    calculate_midline .skeleton splNone (some []) roiW5 (0, 0) (4, 0)
      = calculate_midline .simple splNone (some []) roiW5 (0, 0) (4, 0) :=
  ⟨rfl, larva_C2 splNone (some []) roiW5 (0, 0) (4, 0) rfl⟩

/-! ## Segment landmarks
(source: `calculate_segment_points`, lines 2787-2869, and the label lists
at lines 63-67)

The result dictionary is modelled as an association list in insertion
order (for each segment: left entry, right entry, midline entry), read with
`List.lookup`. -/

/-- The ten left-side labels (source line 64). -/
def leftLabels : List String :=
  ["t1l", "t2l", "t3l", "a1l", "a2l", "a3l", "a4l", "a5l", "a6l", "a7l"]

/-- The ten right-side labels (source line 65). -/
def rightLabels : List String :=
  ["t1r", "t2r", "t3r", "a1r", "a2r", "a3r", "a4r", "a5r", "a6r", "a7r"]

/-- The ten midline labels (source line 66). -/
def midlineLabels : List String :=
  ["st1", "st2", "st3", "sa1", "sa2", "sa3", "sa4", "sa5", "sa6", "sa7"]

/-- The two body-side point lists (source lines 2796-2824): the shorter of
the two index paths between the contour indices nearest head and tail is
the left side, the reversed other path the right side. -/
def segPaths (roi : List Pt) (head tail : Pt) : List Pt × List Pt :=
  if (path1Idx roi.length (nearestIdx roi head) (nearestIdx roi tail)).length
      ≤ (path2Idx roi.length (nearestIdx roi head) (nearestIdx roi tail)).length
  then ((path1Idx roi.length (nearestIdx roi head) (nearestIdx roi tail)).map
          (fun i => roi.getD i (0, 0)),
        (path2Idx roi.length (nearestIdx roi head) (nearestIdx roi tail)).reverse.map
          (fun i => roi.getD i (0, 0)))
  else ((path2Idx roi.length (nearestIdx roi head) (nearestIdx roi tail)).reverse.map
          (fun i => roi.getD i (0, 0)),
        (path1Idx roi.length (nearestIdx roi head) (nearestIdx roi tail)).map
          (fun i => roi.getD i (0, 0)))

/-- The fractional body position of segment i (source line 2841):
t = 0.05 + (i / 9) * 0.9. -/
def tQ (i : ℕ) : ℚ := 1 / 20 + ((i : ℚ) / 9) * (9 / 10)

/-- The sampling index of the source (lines 2844-2845 and analogues):
`int(t * (N - 1))` clamped above by N - 1.  The Python `int()` truncates
toward zero; for the reachable inputs (t in [0.05, 0.95] and N >= 1) the
product is nonnegative, where truncation equals the floor; for N = 0 the
product lies in (-1, 0), where both truncation and clamped floor give 0. -/
def segIdx (t : ℚ) (n : ℕ) : ℕ := min (⌊t * ((n : ℚ) - 1)⌋.toNat) (n - 1)

/-- Modelled from the spec of C6: the same sampling index with `round`
in place of truncation, as the claim states it. -/
def segIdxRound (t : ℚ) (n : ℕ) : ℕ := min (round (t * ((n : ℚ) - 1))).toNat (n - 1)

/-- The 30 labelled landmarks in insertion order (loop at source lines
2835-2861): for each segment the left, right, and midline entries. -/
def segEntries (roi : List Pt) (head tail : Pt) (midline : List Pt) :
    List (String × Pt) :=
  ((List.range 10).map (fun (i : ℕ) =>
    [(leftLabels.getD i "",
        (segPaths roi head tail).1.getD
          (segIdx (tQ i) (segPaths roi head tail).1.length) (0, 0)),
     (rightLabels.getD i "",
        (segPaths roi head tail).2.getD
          (segIdx (tQ i) (segPaths roi head tail).2.length) (0, 0)),
     (midlineLabels.getD i "",
        midline.getD (segIdx (tQ i) midline.length) (0, 0))])).flatten

/-- Landmark sampling given the computed midline (or none when midline
computation failed): fail when the midline has fewer than 10 points, then
sample the 30 landmarks. -/
def segFromMidline (roi : List Pt) (head tail : Pt) :
    Option (List Pt) → Option (List (String × Pt))
  | none => none
  | some midline =>
      if midline.length < 10 then none
      else some (segEntries roi head tail midline)

/-- Segment-landmark computation (source lines 2787-2863): compute the
midline, fail when it has fewer than 10 points, then sample the 30
landmarks. -/
def calculate_segment_points (mode : MidlineMode)
    (spl : List Pt → Option (List Pt)) (skel : Option (List Pt))
    (roi : List Pt) (head tail : Pt) : Option (List (String × Pt)) :=
  segFromMidline roi head tail (calculate_midline mode spl skel roi head tail)

/-- Spline oracle returning eight copies of the origin (its 98-point output
is irrelevant to the claims; eight points keep the witness midline at
exactly 10 points). -/
def spl8 : List Pt → Option (List Pt) :=
  fun _ => some (List.replicate 8 ((0 : ℚ), (0 : ℚ)))

/-- The concrete elongated contour of the C6 analysis: 10 points, head at
index 0, tail at index 5, both side paths of 6 points. -/
def roiC6 : List Pt :=
  [(0, 0), (1, 0), (2, 0), (3, 0), (4, 0), (5, 0), (5, 2), (4, 2), (2, 2), (0, 2)]

/-- The concrete midline the witness spline oracle yields on roiC6. -/
def midC6 : List Pt := ((0 : ℚ), (0 : ℚ)) :: List.replicate 8 ((0 : ℚ), (0 : ℚ)) ++ [(5, 0)]

theorem calc_midline_C6_eval :
    calculate_midline .simple spl8 none roiC6 (0, 0) (5, 0) = some midC6 := by
  show calculate_simple_midline spl8 roiC6 (0, 0) (5, 0) = some midC6
  unfold calculate_simple_midline
  rw [if_neg (by norm_num [sqDist])]
  rw [if_neg (by rw [simpleMidpoints_length]; norm_num)]
  rw [if_pos (by rw [simpleMidpoints_length]; norm_num)]
  rfl

theorem segPaths_C6_left :
    (segPaths roiC6 (0, 0) (5, 0)).1
      = [(0, 0), (1, 0), (2, 0), (3, 0), (4, 0), (5, 0)] := by
  unfold segPaths
  rw [show nearestIdx roiC6 ((0 : ℚ), (0 : ℚ)) = 0 from by
    norm_num [nearestIdx, argminIdx, sqDist, roiC6]]
  rw [show nearestIdx roiC6 ((5 : ℚ), (0 : ℚ)) = 5 from by
    norm_num [nearestIdx, argminIdx, sqDist, roiC6]]
  rw [if_pos (by decide)]
  decide

/-- C6 counterexample: on roiC6 the left side has 6 points; for segment 1
the fraction is t = 0.15, so t * 5 = 0.75.  The code truncates to index 0
(landmark (0,0)); the round rule of the claim gives index 1 (landmark
(1,0)). -/
theorem larva_C6_counterexample :
    (calculate_segment_points .simple spl8 none roiC6 (0, 0) (5, 0)).bind
        (fun s => s.lookup "t2l") = some ((0 : ℚ), (0 : ℚ)) ∧
    (segPaths roiC6 (0, 0) (5, 0)).1.getD
        (segIdxRound (tQ 1) (segPaths roiC6 (0, 0) (5, 0)).1.length) (0, 0)
      = ((1 : ℚ), (0 : ℚ)) ∧
    ((0 : ℚ), (0 : ℚ)) ≠ ((1 : ℚ), (0 : ℚ)) := by
  refine ⟨?_, ?_, by decide⟩
  · unfold calculate_segment_points
    rw [calc_midline_C6_eval]
    simp only [segFromMidline]
    rw [if_neg (by decide)]
    unfold segEntries
    rw [segPaths_C6_left]
    rw [show List.range 10 = [0, 1, 2, 3, 4, 5, 6, 7, 8, 9] from by decide]
    simp only [List.map, List.flatten, Option.bind_some]
    rw [show segIdx (tQ 1)
          ([((0 : ℚ), (0 : ℚ)), (1, 0), (2, 0), (3, 0), (4, 0), (5, 0)] : List Pt).length = 0
        from by norm_num [segIdx, tQ]]
    simp [List.lookup, leftLabels, rightLabels, midlineLabels]
  · rw [segPaths_C6_left]
    rw [show segIdxRound (tQ 1)
          ([((0 : ℚ), (0 : ℚ)), (1, 0), (2, 0), (3, 0), (4, 0), (5, 0)] : List Pt).length = 1
        from by norm_num [segIdxRound, tQ, round_eq]]
    decide

/-- C6 (amended): on success, the landmark for segment i on the left path,
right path, and midline is taken at fraction t = 0.05 + i/9 * 0.9 of the
path, at list index `int(t * (N - 1))` (truncation toward zero, which on
these nonnegative products is the floor), clamped to the valid index range,
where N is the point count of the corresponding path. -/
theorem larva_C6_amended (mode : MidlineMode) (spl : List Pt → Option (List Pt))
    (skel : Option (List Pt)) (roi : List Pt) (head tail : Pt) (midline : List Pt)
    (hmid : calculate_midline mode spl skel roi head tail = some midline)
    (hlen : ¬ midline.length < 10) (i : ℕ) (hi : i < 10) :
    (calculate_segment_points mode spl skel roi head tail).bind
        (fun s => s.lookup (leftLabels.getD i ""))
      = some ((segPaths roi head tail).1.getD
          (segIdx (tQ i) (segPaths roi head tail).1.length) (0, 0)) ∧
    (calculate_segment_points mode spl skel roi head tail).bind
        (fun s => s.lookup (rightLabels.getD i ""))
      = some ((segPaths roi head tail).2.getD
          (segIdx (tQ i) (segPaths roi head tail).2.length) (0, 0)) ∧
    (calculate_segment_points mode spl skel roi head tail).bind
        (fun s => s.lookup (midlineLabels.getD i ""))
      = some (midline.getD (segIdx (tQ i) midline.length) (0, 0)) := by
  have hcalc : calculate_segment_points mode spl skel roi head tail
      = some (segEntries roi head tail midline) := by
    unfold calculate_segment_points
    rw [hmid]
    simp only [segFromMidline]
    rw [if_neg hlen]
  rw [hcalc]
  unfold segEntries
  rw [show List.range 10 = [0, 1, 2, 3, 4, 5, 6, 7, 8, 9] from by decide]
  interval_cases i <;>
    simp [List.lookup, leftLabels, rightLabels, midlineLabels]

/-- Witness for the amended C6 theorem at the concrete roiC6 input,
segment 1. -/
theorem larva_C6_witness :
    calculate_midline .simple spl8 none roiC6 (0, 0) (5, 0) = some midC6 ∧
    ¬ midC6.length < 10 ∧ 1 < 10 ∧
    ((calculate_segment_points .simple spl8 none roiC6 (0, 0) (5, 0)).bind
        (fun s => s.lookup (leftLabels.getD 1 ""))
      = some ((segPaths roiC6 (0, 0) (5, 0)).1.getD
          (segIdx (tQ 1) (segPaths roiC6 (0, 0) (5, 0)).1.length) (0, 0)) ∧
    (calculate_segment_points .simple spl8 none roiC6 (0, 0) (5, 0)).bind
        (fun s => s.lookup (rightLabels.getD 1 ""))
      = some ((segPaths roiC6 (0, 0) (5, 0)).2.getD
          (segIdx (tQ 1) (segPaths roiC6 (0, 0) (5, 0)).2.length) (0, 0)) ∧
    (calculate_segment_points .simple spl8 none roiC6 (0, 0) (5, 0)).bind
        (fun s => s.lookup (midlineLabels.getD 1 ""))
      = some (midC6.getD (segIdx (tQ 1) midC6.length) (0, 0))) :=
  ⟨calc_midline_C6_eval, by decide, by decide,
    larva_C6_amended .simple spl8 none roiC6 (0, 0) (5, 0) midC6
      calc_midline_C6_eval (by decide) 1 (by decide)⟩

/-! ## Densification of the snapping path
(source: `snap_segment_to_roi`, the two identical densification blocks at
lines 2457-2491 for the midline branch and 2558-2596 for the contour
branch)

The candidate path handed to the nearest-point search is densified when the
mean spacing exceeds 3 pixels or the maximum spacing exceeds 6 pixels
(`desired_spacing * 2` in the source); each gap longer than 3 pixels is
subdivided into `ceil(gap / 3)` equal pieces.  Spacings are real distances,
so the branch conditions live in Prop (classical choice decides them). -/

open Classical in
/-- The block the source appends for one consecutive gap (loop body at
lines 2472-2485): the interpolated interior points when the gap exceeds 3
pixels, always followed by the gap's endpoint. -/
noncomputable def densifyGap (p q : Pt) : List Pt :=
  if 3 < dist2 p q then
    ((List.range (⌈dist2 p q / 3⌉₊ - 1)).map (fun (j : ℕ) =>
      padd p (smul (((j : ℚ) + 1) / ((⌈dist2 p q / 3⌉₊ : ℕ) : ℚ)) (psub q p)))) ++ [q]
  else [q]

/-- Consecutive-point spacings of a path (`np.diff` then norms). -/
noncomputable def spacings (path : List Pt) : List ℝ :=
  (path.zip path.tail).map (fun pq => dist2 pq.1 pq.2)

/-- Mean consecutive spacing (`np.mean`). -/
noncomputable def meanSpacing (path : List Pt) : ℝ :=
  (spacings path).sum / (spacings path).length

/-- Maximum consecutive spacing (`np.max`); the fold with 0 agrees with the
numpy maximum because every spacing is nonnegative and the list is nonempty
wherever the source reads it. -/
noncomputable def maxSpacing (path : List Pt) : ℝ :=
  (spacings path).foldr max 0

open Classical in
/-- The densification step of the source: paths of at most one point are
left alone (guard `len > 1`); otherwise, when the mean spacing exceeds 3 or
the maximum spacing exceeds 6, the path is rebuilt as its first point
followed by the per-gap blocks. -/
noncomputable def densifyPath (path : List Pt) : List Pt :=
  if path.length ≤ 1 then path
  else if 3 < meanSpacing path ∨ 6 < maxSpacing path then
    path.headD (0, 0)
      :: ((path.zip path.tail).map (fun pq => densifyGap pq.1 pq.2)).flatten
  else path

theorem sqDist_nonneg (p q : Pt) : 0 ≤ sqDist p q :=
  add_nonneg (mul_self_nonneg _) (mul_self_nonneg _)

theorem dist2_nonneg (p q : Pt) : 0 ≤ dist2 p q := Real.sqrt_nonneg _

/-- The interpolation grid point at parameter j / n between p and q. -/
def gapPoint (p q : Pt) (n : ℕ) (j : ℕ) : Pt :=
  padd p (smul ((j : ℚ) / (n : ℚ)) (psub q p))

theorem gapPoint_zero (p q : Pt) (n : ℕ) : gapPoint p q n 0 = p := by
  unfold gapPoint padd smul psub
  simp

theorem gapPoint_last (p q : Pt) (n : ℕ) (hn : n ≠ 0) : gapPoint p q n n = q := by
  unfold gapPoint padd smul psub
  rw [Prod.ext_iff]
  have hq : ((n : ℚ)) ≠ 0 := by exact_mod_cast hn
  constructor
  · show p.1 + (n : ℚ) / n * (q.1 - p.1) = q.1
    rw [div_self hq]
    ring
  · show p.2 + (n : ℚ) / n * (q.2 - p.2) = q.2
    rw [div_self hq]
    ring

theorem gapPoint_sqDist (p q : Pt) (n : ℕ) (hn : n ≠ 0) (m : ℕ) :
    sqDist (gapPoint p q n m) (gapPoint p q n (m + 1))
      = sqDist p q / ((n : ℚ) * n) := by
  have hq : ((n : ℚ)) ≠ 0 := by exact_mod_cast hn
  unfold gapPoint padd smul psub sqDist
  push_cast
  field_simp
  ring

theorem gapPoint_dist2 (p q : Pt) (n : ℕ) (hn : n ≠ 0) (m : ℕ) :
    dist2 (gapPoint p q n m) (gapPoint p q n (m + 1)) = dist2 p q / n := by
  unfold dist2
  rw [gapPoint_sqDist p q n hn m]
  push_cast
  rw [Real.sqrt_div (by exact_mod_cast sqDist_nonneg p q)]
  rw [show ((n : ℝ) * n) = (n : ℝ) ^ 2 by ring]
  rw [Real.sqrt_sq (by positivity)]

/-- Decomposition of the interpolation grid: left endpoint, the n - 1
interior points, right endpoint. -/
theorem grid_decomp (p q : Pt) (n : ℕ) (hn2 : 2 ≤ n) :
    p :: (((List.range (n - 1)).map (fun (j : ℕ) =>
        padd p (smul (((j : ℚ) + 1) / (n : ℚ)) (psub q p)))) ++ [q])
      = (List.range (n + 1)).map (gapPoint p q n) := by
  obtain ⟨m, rfl⟩ : ∃ m, n = m + 2 := ⟨n - 2, by omega⟩
  rw [show (m + 2) + 1 = (m + 2) + 1 from rfl, List.range_succ, List.map_append,
    List.map_singleton, gapPoint_last p q _ (by omega)]
  rw [List.range_succ_eq_map, List.map_cons, gapPoint_zero, List.map_map]
  rw [show (m + 2) - 1 = m + 1 from by omega]
  rw [show (p :: List.map (gapPoint p q (m + 2) ∘ Nat.succ) (List.range (m + 1))) ++ [q]
        = p :: (List.map (gapPoint p q (m + 2) ∘ Nat.succ) (List.range (m + 1)) ++ [q])
      from rfl]
  congr 2
  apply List.map_congr_left
  intro j _
  rw [Function.comp_apply]
  unfold gapPoint
  push_cast
  rfl

/-- The gap block, with its left endpoint prepended, is exactly the full
interpolation grid between p and q when the gap exceeds 3 pixels. -/
theorem densifyGap_grid (p q : Pt) (hd : 3 < dist2 p q) :
    p :: densifyGap p q
      = (List.range (⌈dist2 p q / 3⌉₊ + 1)).map
          (gapPoint p q ⌈dist2 p q / 3⌉₊) := by
  have hn2 : 2 ≤ ⌈dist2 p q / 3⌉₊ := by
    rw [show (2 : ℕ) = 1 + 1 from rfl, Nat.add_one_le_iff, Nat.lt_ceil]
    push_cast
    linarith
  rw [densifyGap, if_pos hd]
  exact grid_decomp p q _ hn2

theorem chain_gapPoints (p q : Pt) (n : ℕ) (hn : n ≠ 0)
    (hle : dist2 p q ≤ 3 * n) :
    List.Chain' (fun a b => dist2 a b ≤ 3)
      ((List.range (n + 1)).map (gapPoint p q n)) := by
  rw [List.chain'_map, List.chain'_range_succ]
  intro m _
  rw [gapPoint_dist2 p q n hn m]
  rw [div_le_iff₀ (by positivity)]
  linarith

/-- Each gap block, read from its left endpoint, has all consecutive
distances at most 3. -/
theorem chain_densifyGap (p q : Pt) :
    List.Chain' (fun a b => dist2 a b ≤ 3) (p :: densifyGap p q) := by
  by_cases hd : 3 < dist2 p q
  · have hn0 : ⌈dist2 p q / 3⌉₊ ≠ 0 := by
      have : (0 : ℕ) < ⌈dist2 p q / 3⌉₊ := by
        rw [Nat.ceil_pos]
        positivity
      omega
    have hle : dist2 p q ≤ 3 * ⌈dist2 p q / 3⌉₊ := by
      have := Nat.le_ceil (dist2 p q / 3)
      rw [div_le_iff₀ (by norm_num : (0:ℝ) < 3)] at this
      linarith
    rw [densifyGap_grid p q hd]
    exact chain_gapPoints p q _ hn0 hle
  · rw [densifyGap, if_neg hd]
    rw [List.chain'_cons]
    exact ⟨le_of_not_lt hd, List.chain'_singleton q⟩

theorem densifyGap_getLast? (p q : Pt) : (densifyGap p q).getLast? = some q := by
  rw [densifyGap]
  split
  · exact List.getLast?_concat _
  · rfl

theorem getLast?_append_right (l1 l2 : List Pt) (q : Pt)
    (h : l2.getLast? = some q) : (l1 ++ l2).getLast? = some q := by
  have hne : l2 ≠ [] := by
    intro he
    rw [he] at h
    exact absurd h (by simp)
  rw [List.getLast?_append_of_ne_nil l1 hne]
  exact h

/-- The rebuilt path of the densification step is a chain of gaps of at
most 3 pixels, for any starting point and tail list. -/
theorem chain_densify (rest : List Pt) : ∀ (p : Pt),
    List.Chain' (fun a b => dist2 a b ≤ 3)
      (p :: (((p :: rest).zip rest).map (fun pq => densifyGap pq.1 pq.2)).flatten) := by
  induction rest with
  | nil => intro p; simp
  | cons q rest ih =>
      intro p
      obtain ⟨hqB, hB⟩ := List.chain'_cons'.mp (ih q)
      rw [show (((p :: q :: rest).zip (q :: rest)).map
              (fun pq => densifyGap pq.1 pq.2)).flatten
            = densifyGap p q
              ++ (((q :: rest).zip rest).map (fun pq => densifyGap pq.1 pq.2)).flatten
          from rfl]
      rw [show p :: (densifyGap p q
            ++ (((q :: rest).zip rest).map (fun pq => densifyGap pq.1 pq.2)).flatten)
          = (p :: densifyGap p q)
            ++ (((q :: rest).zip rest).map (fun pq => densifyGap pq.1 pq.2)).flatten
        from rfl]
      rw [List.chain'_append]
      refine ⟨chain_densifyGap p q, hB, ?_⟩
      intro x hx y hy
      have hxq : x = q := by
        have hl : (p :: densifyGap p q).getLast? = some q :=
          getLast?_append_right [p] (densifyGap p q) q (densifyGap_getLast? p q)
        rw [hl] at hx
        exact (Option.mem_some_iff.mp hx).symm
      subst hxq
      exact hqB y hy

/-- C8 counterexample: a path with a 4-pixel gap followed by a 1-pixel gap
has maximum spacing 4 (exceeding 3) but mean spacing 5/2 and maximum at
most 6, so the code does not densify it at all and the 4-pixel gap
survives. -/
def pathC8 : List Pt := [(0, 0), (4, 0), (5, 0)]

theorem spacings_pathC8 : spacings pathC8 = [(4 : ℝ), 1] := by
  unfold spacings
  rw [show (pathC8.zip pathC8.tail)
        = [(((0 : ℚ), (0 : ℚ)), ((4 : ℚ), (0 : ℚ))),
           (((4 : ℚ), (0 : ℚ)), ((5 : ℚ), (0 : ℚ)))] from by decide]
  simp only [List.map]
  rw [dist2_eval ((0 : ℚ), (0 : ℚ)) (4, 0) 4 (by norm_num) (by norm_num [sqDist]),
      dist2_eval ((4 : ℚ), (0 : ℚ)) (5, 0) 1 (by norm_num) (by norm_num [sqDist])]
  norm_num

theorem maxSpacing_pathC8 : maxSpacing pathC8 = 4 := by
  unfold maxSpacing
  rw [spacings_pathC8]
  simp only [List.foldr]
  rw [show (max (1 : ℝ) 0) = 1 from max_eq_left (by norm_num)]
  rw [max_eq_left (by norm_num)]

theorem meanSpacing_pathC8 : meanSpacing pathC8 = 5/2 := by
  unfold meanSpacing
  rw [spacings_pathC8]
  norm_num

/-- C8 counterexample: the claim says densification happens whenever the
mean or the maximum spacing exceeds 3 pixels; on pathC8 the maximum spacing
is 5 > 3, yet the code leaves the path unchanged (its trigger is mean > 3
or max > 6), so a 5-pixel gap survives the step. -/
theorem larva_C8_counterexample :
    3 < maxSpacing pathC8 ∧ densifyPath pathC8 = pathC8 ∧
    3 < maxSpacing (densifyPath pathC8) := by
  have hmax : maxSpacing pathC8 = 4 := maxSpacing_pathC8
  have hunch : densifyPath pathC8 = pathC8 := by
    rw [densifyPath]
    rw [if_neg (by decide)]
    rw [if_neg (by
      rw [not_or, not_lt, not_lt, meanSpacing_pathC8, hmax]
      norm_num)]
  refine ⟨by rw [hmax]; norm_num, hunch, by rw [hunch, hmax]; norm_num⟩

/-- C8 (amended): the candidate path is densified exactly when the mean
spacing exceeds 3 pixels or the maximum spacing exceeds 6 pixels (twice the
desired spacing) - not 3 as claimed; when densification runs, linearly
interpolated points are inserted so that no gap of the resulting path
exceeds 3 pixels. -/
theorem larva_C8_amended :
    (∀ path : List Pt, ¬(3 < meanSpacing path ∨ 6 < maxSpacing path) →
      densifyPath path = path) ∧
    (∀ path : List Pt, (3 < meanSpacing path ∨ 6 < maxSpacing path) →
      List.Chain' (fun a b => dist2 a b ≤ 3) (densifyPath path)) := by
  constructor
  · intro path h
    rw [densifyPath]
    by_cases h1 : path.length ≤ 1
    · rw [if_pos h1]
    · rw [if_neg h1, if_neg h]
  · intro path h
    rw [densifyPath]
    by_cases h1 : path.length ≤ 1
    · rw [if_pos h1]
      match path with
      | [] => simp
      | [a] => simp
      | a :: b :: t => simp at h1
    · rw [if_neg h1, if_pos h]
      match path with
      | [] => simp at h1
      | p :: rest => exact chain_densify rest p

/-- A two-point path with one 8-pixel gap for the C8 witness: the mean
spacing is 8 > 3, so densification runs. -/
def pathW8 : List Pt := [(0, 0), (8, 0)]

theorem meanSpacing_pathW8 : meanSpacing pathW8 = 8 := by
  unfold meanSpacing spacings
  rw [show (pathW8.zip pathW8.tail) = [(((0 : ℚ), (0 : ℚ)), ((8 : ℚ), (0 : ℚ)))]
    from by decide]
  simp only [List.map]
  rw [dist2_eval ((0 : ℚ), (0 : ℚ)) (8, 0) 8 (by norm_num) (by norm_num [sqDist])]
  norm_num

/-- Witness for the amended C8 theorem: on the 8-pixel gap the trigger
fires and the densified path is a chain of gaps of at most 3 pixels. -/
theorem larva_C8_witness :
    (3 < meanSpacing pathW8 ∨ 6 < maxSpacing pathW8) ∧
    List.Chain' (fun a b => dist2 a b ≤ 3) (densifyPath pathW8) :=
  ⟨Or.inl (by rw [meanSpacing_pathW8]; norm_num),
    larva_C8_amended.2 pathW8 (Or.inl (by rw [meanSpacing_pathW8]; norm_num))⟩

end Larva
